import Mathlib

/-!
Verification of the string-transform middleware of the
`graphql-middleware-example` repository.

The embedding below translates `string-transform-middleware.ts` into Lean:

* run-time JavaScript values become the inductive `Value`
  (JS truthiness and `typeof` are modelled explicitly; character casing is
  modelled on the ASCII range, which covers every input the specification
  mentions);
* throwing code returns `Except Err _`, where `Err.notAString` models the
  private `NotAString` control-flow signal, `Err.userInputError` models the
  apollo `UserInputError`, and `Err.typeError` models a JavaScript
  `TypeError` (property access on `null`);
* the GraphQL output-type expressions of `graphql-compose` become the
  inductive `OutputType`: `named` covers scalars, enums and object types,
  `nonNull` covers `NonNullComposer`, `list` covers `ListComposer`, and
  `thunk` covers `ThunkComposer` (a deferred reference, already holding the
  composer its resolution yields);
* field configurations, resolvers and the schema composer become plain
  structures, and the one-time rewrite pass becomes a pure function from
  the old composer state to the new one.
-/

/-- A run-time JavaScript value, as far as the middleware inspects one. -/
inductive Value where
  | vundefined : Value
  | vnull : Value
  | vbool : Bool → Value
  | vnum : Int → Value
  | vstr : String → Value
  | varr : List Value → Value
  | vobj : List (String × Value) → Value

/-- JS truthiness: `undefined`, `null`, `false`, `0` and `""` are falsy. -/
def truthy : Value → Bool
  | .vundefined => false
  | .vnull => false
  | .vbool b => b
  | .vnum n => !(n == 0)
  | .vstr s => !(s == "")
  | .varr _ => true
  | .vobj _ => true

/-- Models `typeof v === "string"`. -/
def isString : Value → Bool
  | .vstr _ => true
  | _ => false

/-- Models `Array.isArray(v)`. -/
def isArray : Value → Bool
  | .varr _ => true
  | _ => false

/-- Models `typeof v === "object"`; note that `typeof null` is `"object"`
in JavaScript, so `vnull` satisfies this test. -/
def typeofIsObject : Value → Bool
  | .vnull => true
  | .varr _ => true
  | .vobj _ => true
  | _ => false

/-- The failure channels of the middleware. -/
inductive Err where
  | notAString : Err
  | userInputError : String → Err
  | typeError : Err
deriving DecidableEq

/-- Models `value.toUpperCase()` (ASCII range). -/
def toUpperCase (s : String) : String := String.mk (s.data.map Char.toUpper)

/-- Models `value.toLowerCase()` (ASCII range). -/
def toLowerCase (s : String) : String := String.mk (s.data.map Char.toLower)

/-- A word character in the sense of the regex class `\w`. -/
def isWordChar (c : Char) : Bool := c.isAlpha || c.isDigit || c == '_'

/-- A non-whitespace character in the sense of the regex class `\S`. -/
def isNonSpace (c : Char) : Bool := !c.isWhitespace

/-- The state machine of the global regex replace
`str.replace(/\w\S*/g, txt => txt.charAt(0).toUpperCase() + txt.substr(1).toLowerCase())`
read off character by character.  The Bool flag records whether the scanner
is inside a match: a match starts at a word character and extends greedily
over non-space characters; its first character is upper-cased and the rest
lower-cased; characters outside matches are kept as they are. -/
def titleCaseAux : Bool → List Char → List Char
  | _, [] => []
  | false, c :: rest =>
    if isWordChar c then Char.toUpper c :: titleCaseAux true rest
    else c :: titleCaseAux false rest
  | true, c :: rest =>
    if isNonSpace c then Char.toLower c :: titleCaseAux true rest
    else c :: titleCaseAux false rest

/-- Models `toTitleCase` from the source. -/
def toTitleCase (s : String) : String := String.mk (titleCaseAux false s.data)

/-- The switch statement of `baseTransform`, reached when the value is a
string and the transform argument is truthy.  An unrecognized transform
falls into the default branch and throws `UserInputError`. -/
def applyTransform (s : String) (transform : Value) : Except Err Value :=
  match transform with
  | .vstr "UPPERCASE" => .ok (.vstr (toUpperCase s))
  | .vstr "lowercase" => .ok (.vstr (toLowerCase s))
  | .vstr "TitleCase" => .ok (.vstr (toTitleCase s))
  | _ => .error (.userInputError "Value out of range")

/-- Models `baseTransform(value, transform)`:
`if (!transform || typeof value !== "string") return value;` and otherwise
the switch over the transform name. -/
def baseTransform (value : Value) (transform : Value) : Except Err Value :=
  match value, truthy transform with
  | .vstr s, true => applyTransform s transform
  | _, _ => .ok value

example : baseTransform (.vstr "hello") (.vstr "UPPERCASE") = .ok (.vstr "HELLO") := rfl
example : baseTransform (.vstr "HELLO") (.vstr "lowercase") = .ok (.vstr "hello") := rfl
example : baseTransform (.vstr "the quick fox") (.vstr "TitleCase") = .ok (.vstr "The Quick Fox") := rfl
example : baseTransform (.vstr "ab-cd") (.vstr "TitleCase") = .ok (.vstr "Ab-cd") := rfl
example : baseTransform (.vnum 5) (.vstr "bogus") = .ok (.vnum 5) := rfl
example : baseTransform (.vstr "hi") (.vstr "") = .ok (.vstr "hi") := rfl
example : baseTransform (.vstr "hi") (.vstr "bogus")
    = .error (.userInputError "Value out of range") := rfl

/-- A GraphQL output-type expression as `maybeBuildTransform` sees it:
`named` is any `NamedTypeComposer` (scalar, enum, object, interface ...),
`nonNull` a `NonNullComposer`, `list` a `ListComposer`, and `thunk` a
`ThunkComposer` whose resolution (`getUnwrappedTC`) yields the inner
expression.  Type expressions of a well-formed schema are finite, which the
inductive captures; circular references in the schema graph appear as a
`thunk` whose target is a `named` object type. -/
inductive OutputType where
  | named : String → OutputType
  | nonNull : OutputType → OutputType
  | list : OutputType → OutputType
  | thunk : OutputType → OutputType
deriving DecidableEq

/-- Models `getTypeName()` of graphql-compose: a `NonNullComposer` appends
an exclamation mark, a `ListComposer` wraps in square brackets, and a
`ThunkComposer` delegates to its resolved target. -/
def typeName : OutputType → String
  | .named n => n
  | .nonNull t => typeName t ++ "!"
  | .list t => "[" ++ typeName t ++ "]"
  | .thunk t => typeName t

/-- The shape of a composed transform function: raw value and transform
argument in, transformed value out (or a thrown error). -/
def Transform : Type := Value → Value → Except Err Value

/-- Models `currentValue.map(x => subtransform(x, transform))` for a
callback that may throw: the elements are processed left to right and the
first thrown error aborts the whole map. -/
def mapExcept (f : Value → Except Err Value) : List Value → Except Err (List Value)
  | [] => .ok []
  | x :: xs =>
    match f x with
    | .error e => .error e
    | .ok y =>
      match mapExcept f xs with
      | .error e => .error e
      | .ok ys => .ok (y :: ys)

/-- The closure built for a `ListComposer`:
`if (!transform || !Array.isArray(currentValue)) return currentValue;`
and otherwise the element-wise map with the precomputed sub-transform. -/
def listTransform (subtransform : Transform) : Transform :=
  fun currentValue transform =>
    if truthy transform = false then .ok currentValue
    else
      match currentValue with
      | .varr xs => (mapExcept (fun x => subtransform x transform) xs).map Value.varr
      | _ => .ok currentValue

/-- Models `getUnwrappedTC()` of graphql-compose: it unwraps every
modifier layer (non-null, list, deferred) down to the innermost named type
composer, not just one layer. -/
def namedInner : OutputType → OutputType
  | .named n => .named n
  | .nonNull t => namedInner t
  | .list t => namedInner t
  | .thunk t => namedInner t

/-- The recursive call of the source evaluated at the named composer that
`getUnwrappedTC()` produces: a named composer passes the type-name test or,
matching none of the instanceof branches, falls through to the throw.  The
source writes this as a recursive call of `maybeBuildTransform`; since its
argument is always a named composer, the one recursion step is unfolded
into this helper so that the Lean definition stays structural (the lemma
`maybeBuildTransformNamed_eq` below records that the unfolding is exact). -/
def maybeBuildTransformNamed (t : OutputType) : Except Err Transform :=
  if typeName t = "String" then .ok baseTransform
  else .error .notAString

/-- Models `maybeBuildTransform(fieldConfig, schemaComposer, outputType)`.
The source first tests `outputType.getTypeName() === "String"` and then
walks the instanceof chain `NonNullComposer` / `ListComposer` /
`ThunkComposer`; the type-name test is spelled out once per constructor
here so that each equation of the definition matches one path through the
source.  Each wrapper branch calls `getUnwrappedTC()`, which skips every
intermediate wrapper and yields the innermost named composer
(`namedInner`), and recurses on that; so a list branch maps the transform
of the innermost named type over the elements, and non-null and deferred
branches return that transform directly.  Every terminal that is not the
String scalar throws the `NotAString` signal. -/
def maybeBuildTransform : OutputType → Except Err Transform
  | .named name =>
    if name = "String" then .ok baseTransform
    else .error .notAString
  | .nonNull inner =>
    if typeName (.nonNull inner) = "String" then .ok baseTransform
    else maybeBuildTransformNamed (namedInner inner)
  | .list inner =>
    if typeName (.list inner) = "String" then .ok baseTransform
    else (maybeBuildTransformNamed (namedInner inner)).map listTransform
  | .thunk inner =>
    if typeName (.thunk inner) = "String" then .ok baseTransform
    else maybeBuildTransformNamed (namedInner inner)

example : maybeBuildTransform (.named "String") = .ok baseTransform := rfl
example : maybeBuildTransform (.named "Int") = .error .notAString := rfl
example : maybeBuildTransform (.list (.named "String"))
    = .ok (listTransform baseTransform) := rfl
example : maybeBuildTransform (.nonNull (.list (.named "String")))
    = .ok baseTransform := rfl
example : maybeBuildTransform (.thunk (.list (.named "String")))
    = .ok baseTransform := rfl
example : maybeBuildTransform (.list (.list (.named "String")))
    = .ok (listTransform baseTransform) := rfl
example : listTransform baseTransform (.varr [.vstr "ann", .vnull, .vstr "BOB"]) (.vstr "lowercase")
    = .ok (.varr [.vstr "ann", .vnull, .vstr "bob"]) := rfl

/-- The argument specification stored for the injected argument: the name
of its type in the composer and its description string. -/
structure ArgSpec where
  type : String
  description : String
deriving DecidableEq

/-- A data-fetching function `(source, args, context, info) => value`;
a thrown error is an `Except.error`, and an asynchronous result is modelled
by its awaited value. -/
def Resolver : Type := Value → Value → Value → Value → Except Err Value

/-- A field configuration: declared output type, argument mapping and
optional resolver, the three attributes the middleware reads or writes. -/
structure FieldConfig where
  type : OutputType
  args : List (String × ArgSpec)
  resolve : Option Resolver

/-- Models the JS object assignment `args["textTransform"] = spec`:
replace the entry if the key is present, append it otherwise. -/
def setArg (args : List (String × ArgSpec)) (key : String) (spec : ArgSpec) :
    List (String × ArgSpec) :=
  if args.any (fun p => p.1 = key) then
    args.map (fun p => if p.1 = key then (key, spec) else p)
  else args ++ [(key, spec)]

/-- Models `injectArgs`: add the `textTransform` argument, typed by the
`TextTransform` enum fetched from the composer (represented by its name).
An absent `args` object is modelled by the empty mapping. -/
def injectArgs (fieldConfig : FieldConfig) : FieldConfig :=
  { fieldConfig with
    args := setArg fieldConfig.args "textTransform"
      ⟨"TextTransform", "Transforms string results into different forms"⟩ }

/-- Models `source[fieldName]` on a value already known to be truthy and
object-typed: a lookup on an object, `undefined` on anything else. -/
def propAccess (v : Value) (fieldName : String) : Value :=
  match v with
  | .vobj fields => (fields.lookup fieldName).getD .vundefined
  | _ => .vundefined

/-- The default resolver installed when a field has none:
`(source) => source && typeof source === "object" ? source[fieldName] : undefined`. -/
def defaultResolve (fieldName : String) : Resolver :=
  fun source _args _context _info =>
    .ok (if truthy source && typeofIsObject source then propAccess source fieldName
         else .vundefined)

/-- Models the JS property read `v[key]` where `v` may be anything:
reading a property of `null` or `undefined` throws a `TypeError`. -/
def jsIndex (v : Value) (key : String) : Except Err Value :=
  match v with
  | .vnull => .error .typeError
  | .vundefined => .error .typeError
  | .vobj fields => .ok ((fields.lookup key).getD .vundefined)
  | _ => .ok .vundefined

/-- The mode value handed to the transform by the replacement resolver:
`typeof args === "object" ? args["textTransform"] : undefined`. -/
def textTransformArg (args : Value) : Except Err Value :=
  if typeofIsObject args then jsIndex args "textTransform" else .ok .vundefined

/-- The replacement resolver: await the captured original resolver, then
feed its value and the caller-supplied `textTransform` argument through the
composed transform. -/
def wrapResolve (transform : Transform) (resolver : Resolver) : Resolver :=
  fun source args context info =>
    match resolver source args context info with
    | .error e => .error e
    | .ok value =>
      match textTransformArg args with
      | .error e => .error e
      | .ok mode => transform value mode

/-- The unconditional first step of `maybeInjectTransform`:
`if (!fieldConfig.resolve) { fieldConfig.resolve = (source) => ... }`. -/
def withDefaultResolve (fieldName : String) (fieldConfig : FieldConfig) : FieldConfig :=
  match fieldConfig.resolve with
  | some _ => fieldConfig
  | none => { fieldConfig with resolve := some (defaultResolve fieldName) }

/-- The catch block of `maybeInjectTransform`: swallow the `NotAString`
signal, keeping the field as it was, and rethrow anything else. -/
def catchNotAString (fieldConfig : FieldConfig) :
    Except Err FieldConfig → Except Err FieldConfig
  | .ok fc => .ok fc
  | .error e => if e = .notAString then .ok fieldConfig else .error e

/-- Models `maybeInjectTransform(fieldName, fieldConfig, schemaComposer)`:
install the default resolver when none is present, build the transform for
the declared output type, and on success inject the argument and swap in
the wrapped resolver; the `NotAString` signal skips the field.  After
`withDefaultResolve` the field always carries a resolver, so the `getD`
fallback below is never taken. -/
def maybeInjectTransform (fieldName : String) (fieldConfig : FieldConfig) :
    Except Err FieldConfig :=
  let fc := withDefaultResolve fieldName fieldConfig
  let resolver := fc.resolve.getD (defaultResolve fieldName)
  catchNotAString fc
    ((maybeBuildTransform fc.type).map (fun transform =>
      { injectArgs fc with resolve := some (wrapResolve transform resolver) }))

/-- A registered type of the composer: a concrete object type with its
fields, or any other kind of type (scalar, enum, union, interface ...),
which the driver loop skips. -/
inductive TypeComposer where
  | objectType : String → List (String × FieldConfig) → TypeComposer
  | otherType : String → TypeComposer

/-- The mutable state of the schema composer that the middleware touches:
the registered enums and the registered types. -/
structure SchemaComposerState where
  enums : List (String × List String)
  types : List TypeComposer

/-- Models `injectTextTransformEnum`: register
`enum TextTransform { UPPERCASE lowercase TitleCase }`. -/
def injectTextTransformEnum (composer : SchemaComposerState) : SchemaComposerState :=
  { composer with
    enums := composer.enums ++ [("TextTransform", ["UPPERCASE", "lowercase", "TitleCase"])] }

/-- Models `injectStringTransformMiddleware`: register the enum, then walk
every concrete object type and rewrite each of its fields. -/
def injectStringTransformMiddleware (composer : SchemaComposerState) :
    Except Err SchemaComposerState := do
  let c := injectTextTransformEnum composer
  let types ← c.types.mapM (fun tc =>
    match tc with
    | .objectType name fields =>
      (fields.mapM (fun p =>
        (maybeInjectTransform p.1 p.2).map (fun fc => (p.1, fc)))).map
        (TypeComposer.objectType name)
    | .otherType n => .ok (.otherType n))
  .ok { c with types := types }

/-! Specification-side definitions.  `wordRuns`/`titleRun` give an
independent, run-based description of the title-casing the code performs
(used to state the amended form of the TitleCase clause), and
`claimTitleCaseAux` follows the claim text word for word ("capitalizes the
first letter of every maximal run of word characters and lower-cases the
remainder of each run"), to compare the two. -/

/-- Length of `dropWhile` never exceeds the length of the input. -/
theorem length_dropWhile_le (p : Char → Bool) :
    ∀ l : List Char, (l.dropWhile p).length ≤ l.length
  | [] => Nat.le_refl 0
  | c :: cs => by
    rw [List.dropWhile_cons]
    by_cases h : p c
    · simp only [h, if_true]
      exact Nat.le_succ_of_le (length_dropWhile_le p cs)
    · simp [h]

/-- Title-case one maximal whitespace-free run: the characters before the
first word character are unchanged, the first word character is
upper-cased, and the remainder of the run is lower-cased; a run with no
word character is unchanged. -/
def titleRun (run : List Char) : List Char :=
  match run.dropWhile (fun c => !isWordChar c) with
  | [] => run.takeWhile (fun c => !isWordChar c)
  | c :: rest =>
    run.takeWhile (fun c => !isWordChar c) ++ (Char.toUpper c :: rest.map Char.toLower)

/-- Split a string into maximal whitespace-free runs, title-casing each
with `titleRun` and keeping the whitespace between them unchanged. -/
def wordRuns : List Char → List Char
  | [] => []
  | c :: cs =>
    if h : isNonSpace c then
      titleRun ((c :: cs).takeWhile isNonSpace) ++ wordRuns ((c :: cs).dropWhile isNonSpace)
    else
      c :: wordRuns cs
termination_by l => l.length
decreasing_by
  · simp only [List.dropWhile_cons, h, if_true, List.length_cons]
    exact Nat.lt_succ_of_le (length_dropWhile_le isNonSpace _)
  · simp

/-- The claim text, taken literally: upper-case the first character of
every maximal run of word characters and lower-case the remainder of that
run; the Bool flag records being inside such a run. -/
def claimTitleCaseAux : Bool → List Char → List Char
  | _, [] => []
  | false, c :: rest =>
    if isWordChar c then Char.toUpper c :: claimTitleCaseAux true rest
    else c :: claimTitleCaseAux false rest
  | true, c :: rest =>
    if isWordChar c then Char.toLower c :: claimTitleCaseAux true rest
    else c :: claimTitleCaseAux false rest

/-- Title case of a string under the claim text reading. -/
def claimTitleCase (s : String) : String := String.mk (claimTitleCaseAux false s.data)

example : claimTitleCase "ab-cd" = "Ab-Cd" := rfl
example : toTitleCase "ab-cd" = "Ab-cd" := rfl

/-- One unit per call the recursive builder makes: the top-level call
plus, in the wrapper branches, the single recursive call on the
fully-unwrapped named composer.  Instrumentation for the termination bound
of the type unwrapper. -/
def buildSteps : OutputType → Nat
  | .named _ => 1
  | .nonNull inner =>
    if typeName (.nonNull inner) = "String" then 1 else 2
  | .list inner =>
    if typeName (.list inner) = "String" then 1 else 2
  | .thunk inner =>
    if typeName (.thunk inner) = "String" then 1 else 2

/-- The number of layers of a type expression. -/
def typeDepth : OutputType → Nat
  | .named _ => 1
  | .nonNull inner => typeDepth inner + 1
  | .list inner => typeDepth inner + 1
  | .thunk inner => typeDepth inner + 1

/-! Helper lemmas. -/

/-- A word character is not whitespace. -/
theorem isWordChar_nonSpace {c : Char} (h : isWordChar c = true) : isNonSpace c = true := by
  unfold isNonSpace
  cases hws : c.isWhitespace
  · rfl
  · exfalso
    have hc : ((c = ' ' ∨ c = '\t') ∨ c = '\r') ∨ c = '\n' := by
      simpa [Char.isWhitespace] using hws
    rcases hc with ((rfl | rfl) | rfl) | rfl <;> exact absurd h (by decide)

/-- The name of a non-null wrapper is never the bare name `String`. -/
theorem append_bang_ne_String (s : String) : s ++ "!" ≠ "String" := by
  intro h
  have hd : s.data ++ ['!'] = ("String" : String).data := by
    have := congrArg String.data h
    simpa using this
  have hc : (s.data ++ ['!']).getLast? = (("String" : String).data).getLast? :=
    congrArg List.getLast? hd
  rw [List.getLast?_concat] at hc
  exact absurd hc (by decide)

/-- The name of a list wrapper is never the bare name `String`. -/
theorem bracket_ne_String (s : String) : "[" ++ s ++ "]" ≠ "String" := by
  intro h
  have hd : '[' :: (s.data ++ [']']) = ("String" : String).data := by
    have := congrArg String.data h
    simpa using this
  have hc : some '[' = (("String" : String).data).head? := by
    rw [← hd]
    rfl
  exact absurd hc (by decide)

/-- The full unwrap always lands on a named composer. -/
theorem namedInner_shape (t : OutputType) : ∃ n, namedInner t = .named n := by
  induction t with
  | named n => exact ⟨n, rfl⟩
  | nonNull inner ih => exact ih
  | list inner ih => exact ih
  | thunk inner ih => exact ih

/-- The unfolded recursive call agrees with the builder on every named
composer: the unfolding in the wrapper branches is exact. -/
theorem maybeBuildTransformNamed_eq (n : String) :
    maybeBuildTransformNamed (.named n) = maybeBuildTransform (.named n) := by
  simp [maybeBuildTransformNamed, maybeBuildTransform, typeName]

/-- The unfolded recursive call on a fully-unwrapped composer is the
builder applied to that composer. -/
theorem maybeBuildTransformNamed_namedInner (t : OutputType) :
    maybeBuildTransformNamed (namedInner t) = maybeBuildTransform (namedInner t) := by
  obtain ⟨n, hn⟩ := namedInner_shape t
  rw [hn, maybeBuildTransformNamed_eq]

/-- A type whose resolved name is the bare name String is a chain of
deferred references ending at the String scalar, so its full unwrap is the
String scalar. -/
theorem namedInner_of_typeName_String (t : OutputType) (h : typeName t = "String") :
    namedInner t = .named "String" := by
  induction t with
  | named n => simpa [typeName, namedInner] using h
  | nonNull inner ih =>
    exact absurd h (by simpa [typeName] using append_bang_ne_String (typeName inner))
  | list inner ih =>
    exact absurd h (by simpa [typeName] using bracket_ne_String (typeName inner))
  | thunk inner ih => exact ih (by simpa [typeName] using h)

/-- Whenever the resolved type name is the String scalar, the builder
returns the base transform at once. -/
theorem maybeBuildTransform_of_typeName (t : OutputType) (h : typeName t = "String") :
    maybeBuildTransform t = .ok baseTransform := by
  cases t with
  | named n => simp only [maybeBuildTransform]; rw [if_pos (by simpa [typeName] using h)]
  | nonNull inner =>
    exact absurd h (by simpa [typeName] using append_bang_ne_String (typeName inner))
  | list inner =>
    exact absurd h (by simpa [typeName] using bracket_ne_String (typeName inner))
  | thunk inner => simp only [maybeBuildTransform]; rw [if_pos (by simpa [typeName] using h)]

/-- The non-null branch reduces the analysis to the fully-unwrapped named
composer. -/
theorem maybeBuildTransform_nonNull_named (t : OutputType) :
    maybeBuildTransform (.nonNull t) = maybeBuildTransform (namedInner t) := by
  have e : maybeBuildTransform (.nonNull t)
      = if typeName (.nonNull t) = "String" then .ok baseTransform
        else maybeBuildTransformNamed (namedInner t) := rfl
  rw [e, if_neg (by simpa [typeName] using append_bang_ne_String (typeName t))]
  exact maybeBuildTransformNamed_namedInner t

/-- The deferred-reference branch reduces the analysis to the
fully-unwrapped named composer. -/
theorem maybeBuildTransform_thunk_named (t : OutputType) :
    maybeBuildTransform (.thunk t) = maybeBuildTransform (namedInner t) := by
  have e : maybeBuildTransform (.thunk t)
      = if typeName (.thunk t) = "String" then .ok baseTransform
        else maybeBuildTransformNamed (namedInner t) := rfl
  by_cases h : typeName t = "String"
  · rw [e, if_pos (by simpa [typeName] using h), namedInner_of_typeName_String t h]
    rfl
  · rw [e, if_neg (by simpa [typeName] using h)]
    exact maybeBuildTransformNamed_namedInner t

/-- The list branch maps the transform of the fully-unwrapped named
composer over the elements: the type-name test never fires on a bracketed
name, so the list branch always recurses. -/
theorem maybeBuildTransform_list (t : OutputType) :
    maybeBuildTransform (.list t)
      = (maybeBuildTransform (namedInner t)).map listTransform := by
  have e : maybeBuildTransform (.list t)
      = if typeName (.list t) = "String" then .ok baseTransform
        else (maybeBuildTransformNamed (namedInner t)).map listTransform := rfl
  rw [e, if_neg (by simpa [typeName] using bracket_ne_String (typeName t)),
    maybeBuildTransformNamed_namedInner]

/-- The named equation of the builder for a non-String terminal. -/
theorem maybeBuildTransform_named_ne (n : String) (h : n ≠ "String") :
    maybeBuildTransform (.named n) = .error .notAString := by
  simp [maybeBuildTransform, h]

/-- On a named composer an error of the builder is the signal. -/
theorem maybeBuildTransform_named_error (n : String) (e : Err)
    (h : maybeBuildTransform (.named n) = .error e) : e = .notAString := by
  by_cases hn : n = "String"
  · simp [maybeBuildTransform, hn] at h
  · rw [maybeBuildTransform_named_ne n hn] at h
    exact (Except.error.inj h).symm

/-- On a named composer a success of the builder is the base transform. -/
theorem maybeBuildTransform_named_ok (n : String) (f : Transform)
    (h : maybeBuildTransform (.named n) = .ok f) : f = baseTransform := by
  by_cases hn : n = "String"
  · simp only [maybeBuildTransform, hn, if_pos] at h
    exact (Except.ok.inj h).symm
  · rw [maybeBuildTransform_named_ne n hn] at h
    exact absurd h (by simp)

/-- The only error the builder ever throws is the `NotAString` signal. -/
theorem maybeBuildTransform_error (t : OutputType) (e : Err)
    (h : maybeBuildTransform t = .error e) : e = .notAString := by
  cases t with
  | named n => exact maybeBuildTransform_named_error n e h
  | nonNull inner =>
    rw [maybeBuildTransform_nonNull_named] at h
    obtain ⟨n, hn⟩ := namedInner_shape inner
    rw [hn] at h
    exact maybeBuildTransform_named_error n e h
  | list inner =>
    rw [maybeBuildTransform_list] at h
    obtain ⟨n, hn⟩ := namedInner_shape inner
    rw [hn] at h
    cases hi : maybeBuildTransform (.named n) with
    | ok f => rw [hi] at h; exact absurd h (by simp [Except.map])
    | error e2 =>
      rw [hi] at h
      simp only [Except.map, Except.error.injEq] at h
      subst h
      exact maybeBuildTransform_named_error n e2 hi
  | thunk inner =>
    rw [maybeBuildTransform_thunk_named] at h
    obtain ⟨n, hn⟩ := namedInner_shape inner
    rw [hn] at h
    exact maybeBuildTransform_named_error n e h

/-- Every transform the builder can produce is the base transform or one
list layer over it: the wrapper branches recurse on the fully-unwrapped
named composer, whose transform is the base transform when it succeeds. -/
theorem maybeBuildTransform_ok_cases (t : OutputType) (f : Transform)
    (h : maybeBuildTransform t = .ok f) :
    f = baseTransform ∨ f = listTransform baseTransform := by
  cases t with
  | named n => exact Or.inl (maybeBuildTransform_named_ok n f h)
  | nonNull inner =>
    rw [maybeBuildTransform_nonNull_named] at h
    obtain ⟨n, hn⟩ := namedInner_shape inner
    rw [hn] at h
    exact Or.inl (maybeBuildTransform_named_ok n f h)
  | list inner =>
    rw [maybeBuildTransform_list] at h
    obtain ⟨n, hn⟩ := namedInner_shape inner
    rw [hn] at h
    cases hi : maybeBuildTransform (.named n) with
    | error e2 => rw [hi] at h; exact absurd h (by simp [Except.map])
    | ok sub =>
      rw [hi] at h
      have hsub := maybeBuildTransform_named_ok n sub hi
      subst hsub
      have hf : listTransform baseTransform = f := by simpa [Except.map] using h
      exact Or.inr hf.symm
  | thunk inner =>
    rw [maybeBuildTransform_thunk_named] at h
    obtain ⟨n, hn⟩ := namedInner_shape inner
    rw [hn] at h
    exact Or.inl (maybeBuildTransform_named_ok n f h)

/-- A falsy transform argument makes the base transform the identity. -/
theorem baseTransform_falsy (v m : Value) (h : truthy m = false) :
    baseTransform v m = .ok v := by
  unfold baseTransform
  rw [h]
  cases v <;> rfl

/-- A non-string value passes through the base transform unchanged. -/
theorem baseTransform_nonstring (v m : Value) (h : isString v = false) :
    baseTransform v m = .ok v := by
  unfold baseTransform
  cases v <;> first
    | rfl
    | (cases truthy m <;> simp_all [isString])

/-- The base transform only ever throws on a string value. -/
theorem baseTransform_error_string (v m : Value) (e : Err)
    (h : baseTransform v m = .error e) : isString v = true := by
  by_cases hs : isString v = true
  · exact hs
  · rw [baseTransform_nonstring v m (by simpa using hs)] at h
    exact absurd h (by simp)

/-- The list transform is the identity on a falsy transform argument. -/
theorem listTransform_falsy (sub : Transform) (v m : Value) (h : truthy m = false) :
    listTransform sub v m = .ok v := by
  simp [listTransform, h]

/-- The list transform is the identity on anything that is not an array. -/
theorem listTransform_not_array (sub : Transform) (v m : Value) (h : isArray v = false) :
    listTransform sub v m = .ok v := by
  by_cases hm : truthy m = false
  · simp [listTransform, hm]
  · unfold listTransform
    rw [if_neg hm]
    cases v <;> first | rfl | simp [isArray] at h

/-- The list transform on an array maps the sub-transform element-wise. -/
theorem listTransform_array (sub : Transform) (xs : List Value) (m : Value)
    (hm : truthy m = true) :
    listTransform sub (.varr xs) m = (mapExcept (fun x => sub x m) xs).map Value.varr := by
  unfold listTransform
  rw [if_neg (by simp [hm])]

/-- Every transform the builder produces is the identity on a falsy
transform argument, whatever the value. -/
theorem transform_falsy_id (t : OutputType) (f : Transform)
    (hf : maybeBuildTransform t = .ok f) (v m : Value) (h : truthy m = false) :
    f v m = .ok v := by
  rcases maybeBuildTransform_ok_cases t f hf with rfl | rfl
  · exact baseTransform_falsy v m h
  · exact listTransform_falsy baseTransform v m h

/-- Success of `mapExcept` gives the element-wise relation, in order. -/
theorem mapExcept_ok_forall₂ (g : Value → Except Err Value) :
    ∀ {xs ys : List Value}, mapExcept g xs = .ok ys →
      List.Forall₂ (fun x y => g x = .ok y) xs ys := by
  intro xs
  induction xs with
  | nil =>
    intro ys h
    have : ys = [] := by simpa [mapExcept] using h.symm
    subst this
    exact List.Forall₂.nil
  | cons x xs ih =>
    intro ys h
    cases hx : g x with
    | error e => simp [mapExcept, hx] at h
    | ok y =>
      cases hm : mapExcept g xs with
      | error e => simp [mapExcept, hx, hm] at h
      | ok ys' =>
        have hcons : y :: ys' = ys := by simpa [mapExcept, hx, hm] using h
        subst hcons
        exact List.Forall₂.cons hx (ih hm)

/-- If every element succeeds, `mapExcept` succeeds. -/
theorem mapExcept_total (g : Value → Except Err Value) :
    ∀ xs : List Value, (∀ x ∈ xs, ∃ y, g x = .ok y) →
      ∃ ys, mapExcept g xs = .ok ys := by
  intro xs
  induction xs with
  | nil => exact fun _ => ⟨[], rfl⟩
  | cons x xs ih =>
    intro h
    obtain ⟨y, hy⟩ := h x (List.mem_cons_self x xs)
    obtain ⟨ys, hys⟩ := ih (fun a ha => h a (List.mem_cons_of_mem x ha))
    exact ⟨y :: ys, by simp [mapExcept, hy, hys]⟩

/-- The transform arguments the schema makes expressible: the argument is
omitted, or is one of the three registered enum values. -/
def validMode (m : Value) : Prop :=
  m = .vundefined ∨ m = .vstr "UPPERCASE" ∨ m = .vstr "lowercase" ∨ m = .vstr "TitleCase"

/-- The base transform never throws on a valid mode. -/
theorem baseTransform_total_validMode (v m : Value) (h : validMode m) :
    ∃ w, baseTransform v m = .ok w := by
  rcases h with rfl | rfl | rfl | rfl <;> cases v <;> exact ⟨_, rfl⟩

/-- No transform the builder produces throws on a valid mode. -/
theorem transform_total_validMode (t : OutputType) (f : Transform)
    (hf : maybeBuildTransform t = .ok f) (v m : Value) (h : validMode m) :
    ∃ w, f v m = .ok w := by
  rcases maybeBuildTransform_ok_cases t f hf with rfl | rfl
  · exact baseTransform_total_validMode v m h
  · by_cases hm : truthy m = false
    · exact ⟨v, listTransform_falsy baseTransform v m hm⟩
    · have hm' : truthy m = true := by simpa using hm
      cases v with
      | varr xs =>
        obtain ⟨ys, hys⟩ := mapExcept_total (fun x => baseTransform x m) xs
          (fun x _ => baseTransform_total_validMode x m h)
        refine ⟨.varr ys, ?_⟩
        rw [listTransform_array baseTransform xs m hm', hys]
        rfl
      | vundefined => exact ⟨_, listTransform_not_array baseTransform _ m rfl⟩
      | vnull => exact ⟨_, listTransform_not_array baseTransform _ m rfl⟩
      | vbool b => exact ⟨_, listTransform_not_array baseTransform _ m rfl⟩
      | vnum n => exact ⟨_, listTransform_not_array baseTransform _ m rfl⟩
      | vstr s => exact ⟨_, listTransform_not_array baseTransform _ m rfl⟩
      | vobj fields => exact ⟨_, listTransform_not_array baseTransform _ m rfl⟩

/-- Title-casing a run that starts with a word character: upper-case it
and lower-case the rest of the run. -/
theorem titleRun_cons_word {c : Char} (t : List Char) (h : isWordChar c = true) :
    titleRun (c :: t) = Char.toUpper c :: t.map Char.toLower := by
  unfold titleRun
  rw [List.dropWhile_cons_of_neg (by simp [h]), List.takeWhile_cons_of_neg (by simp [h])]
  simp

/-- Title-casing a run that starts with a non-word character leaves that
character alone and continues on the rest. -/
theorem titleRun_cons_notword {c : Char} (t : List Char) (h : isWordChar c = false) :
    titleRun (c :: t) = c :: titleRun t := by
  unfold titleRun
  rw [List.dropWhile_cons_of_pos (by simp [h]), List.takeWhile_cons_of_pos (by simp [h])]
  cases hd : t.dropWhile (fun c => !isWordChar c) with
  | nil => simp
  | cons c' rest => simp

/-- The nil equation of `wordRuns`, restated. -/
theorem wordRuns_nil : wordRuns [] = [] := by
  unfold wordRuns
  rfl

/-- Unfolding `wordRuns` at a whitespace head. -/
theorem wordRuns_cons_space (c : Char) (cs : List Char) (h : isNonSpace c = false) :
    wordRuns (c :: cs) = c :: wordRuns cs := by
  conv_lhs => unfold wordRuns
  rw [dif_neg (by simp [h])]

/-- Unfolding `wordRuns` at a non-whitespace head. -/
theorem wordRuns_cons_nonspace (c : Char) (cs : List Char) (h : isNonSpace c = true) :
    wordRuns (c :: cs) =
      titleRun ((c :: cs).takeWhile isNonSpace) ++ wordRuns ((c :: cs).dropWhile isNonSpace) := by
  conv_lhs => unfold wordRuns
  rw [dif_pos h]

/-- Splitting off the leading run is transparent for `wordRuns`. -/
theorem wordRuns_seg (cs : List Char) :
    titleRun (cs.takeWhile isNonSpace) ++ wordRuns (cs.dropWhile isNonSpace) = wordRuns cs := by
  cases cs with
  | nil => simp [show titleRun [] = [] from rfl, wordRuns_nil]
  | cons c cs' =>
    by_cases h : isNonSpace c
    · rw [wordRuns_cons_nonspace c cs' h]
    · have h' : isNonSpace c = false := by simpa using h
      rw [List.takeWhile_cons_of_neg (by simp [h']), List.dropWhile_cons_of_neg (by simp [h'])]
      simp [show titleRun [] = [] from rfl]

/-- The regex state machine computes exactly the run-based description:
in scanning state it produces `wordRuns`, and inside a match it lower-cases
the rest of the current run and continues with `wordRuns`. -/
theorem titleCaseAux_spec : ∀ (n : Nat) (l : List Char), l.length ≤ n →
    titleCaseAux false l = wordRuns l ∧
    titleCaseAux true l =
      (l.takeWhile isNonSpace).map Char.toLower ++ wordRuns (l.dropWhile isNonSpace) := by
  intro n
  induction n with
  | zero =>
    intro l hl
    have : l = [] := List.length_eq_zero.mp (Nat.le_zero.mp hl)
    subst this
    exact ⟨by simp [titleCaseAux, wordRuns_nil], by simp [titleCaseAux, wordRuns_nil]⟩
  | succ n ih =>
    intro l hl
    cases l with
    | nil => exact ⟨by simp [titleCaseAux, wordRuns_nil], by simp [titleCaseAux, wordRuns_nil]⟩
    | cons c cs =>
      have hcs : cs.length ≤ n := by
        simp only [List.length_cons] at hl
        omega
      constructor
      · by_cases hw : isWordChar c
        · have hns : isNonSpace c = true := isWordChar_nonSpace hw
          rw [show titleCaseAux false (c :: cs) = Char.toUpper c :: titleCaseAux true cs from
            by simp [titleCaseAux, hw]]
          rw [wordRuns_cons_nonspace c cs hns, List.takeWhile_cons_of_pos hns,
            List.dropWhile_cons_of_pos hns, titleRun_cons_word _ hw, (ih cs hcs).2]
          simp
        · have hw' : isWordChar c = false := by simpa using hw
          rw [show titleCaseAux false (c :: cs) = c :: titleCaseAux false cs from
            by simp [titleCaseAux, hw']]
          rw [(ih cs hcs).1]
          by_cases hns : isNonSpace c
          · rw [wordRuns_cons_nonspace c cs hns, List.takeWhile_cons_of_pos hns,
              List.dropWhile_cons_of_pos hns, titleRun_cons_notword _ hw', ← wordRuns_seg cs]
            simp
          · have hns' : isNonSpace c = false := by simpa using hns
            rw [wordRuns_cons_space c cs hns']
      · by_cases hns : isNonSpace c
        · rw [show titleCaseAux true (c :: cs) = Char.toLower c :: titleCaseAux true cs from
            by simp [titleCaseAux, hns]]
          rw [List.takeWhile_cons_of_pos hns, List.dropWhile_cons_of_pos hns, (ih cs hcs).2]
          simp
        · have hns' : isNonSpace c = false := by simpa using hns
          rw [show titleCaseAux true (c :: cs) = c :: titleCaseAux false cs from
            by simp [titleCaseAux, hns']]
          rw [List.takeWhile_cons_of_neg (by simp [hns']),
            List.dropWhile_cons_of_neg (by simp [hns']), (ih cs hcs).1,
            wordRuns_cons_space c cs hns']
          simp

/-- The title-casing of the source equals the run-based description. -/
theorem toTitleCase_eq_wordRuns (s : String) :
    toTitleCase s = String.mk (wordRuns s.data) :=
  congrArg String.mk (titleCaseAux_spec s.data.length s.data (Nat.le_refl _)).1

/-- Installing the default resolver, described without the case split. -/
theorem withDefaultResolve_eq (fn : String) (fc : FieldConfig) :
    withDefaultResolve fn fc
      = { fc with resolve := some (fc.resolve.getD (defaultResolve fn)) } := by
  cases fc with
  | mk t a r => cases r <;> rfl

/-- Installing the default resolver changes neither type nor arguments. -/
theorem withDefaultResolve_type (fn : String) (fc : FieldConfig) :
    (withDefaultResolve fn fc).type = fc.type := by
  rw [withDefaultResolve_eq]

/-- When the builder signals `NotAString`, the field is skipped: only the
unconditional default-resolver installation has happened. -/
theorem maybeInjectTransform_skip (fn : String) (fc : FieldConfig)
    (h : maybeBuildTransform fc.type = .error .notAString) :
    maybeInjectTransform fn fc = .ok (withDefaultResolve fn fc) := by
  simp [maybeInjectTransform, withDefaultResolve_type, h, catchNotAString, Except.map]

/-- The field rewriter never lets an error escape: the only error raised in
this code is the `NotAString` signal and it is always caught. -/
theorem maybeInjectTransform_total (fn : String) (fc : FieldConfig) :
    ∃ fc', maybeInjectTransform fn fc = .ok fc' := by
  cases h : maybeBuildTransform (withDefaultResolve fn fc).type with
  | ok t =>
    refine ⟨{ injectArgs (withDefaultResolve fn fc) with
      resolve := some (wrapResolve t
        ((withDefaultResolve fn fc).resolve.getD (defaultResolve fn))) }, ?_⟩
    simp [maybeInjectTransform, h, catchNotAString, Except.map]
  | error e =>
    have he := maybeBuildTransform_error _ _ h
    subst he
    have h' : maybeBuildTransform fc.type = .error .notAString := by
      rw [← withDefaultResolve_type fn fc]
      exact h
    exact ⟨_, maybeInjectTransform_skip fn fc h'⟩

/-- The number of calls the builder makes is bounded by the number of
layers of the type expression: each layer is visited at most once. -/
theorem buildSteps_le_typeDepth (t : OutputType) : buildSteps t ≤ typeDepth t := by
  have hd : ∀ u : OutputType, 1 ≤ typeDepth u := by
    intro u
    cases u <;> simp [typeDepth]
  cases t with
  | named n => simp [buildSteps, typeDepth]
  | nonNull inner =>
    simp only [buildSteps, typeDepth]
    split
    · omega
    · have := hd inner
      omega
  | list inner =>
    simp only [buildSteps, typeDepth]
    split
    · omega
    · have := hd inner
      omega
  | thunk inner =>
    simp only [buildSteps, typeDepth]
    split
    · omega
    · have := hd inner
      omega

/-! Concrete fixtures used by the claim theorems below. -/

/-- A resolver that always yields the string value `hi`. -/
def helloResolver : Resolver := fun _ _ _ _ => .ok (.vstr "hi")

/-- A resolver that always yields the number 7. -/
def countResolver : Resolver := fun _ _ _ _ => .ok (.vnum 7)

/-- An integer-typed field with no resolver of its own. -/
def fcAge : FieldConfig := ⟨.named "Int", [], none⟩

/-- An integer-typed field with an argument and a resolver of its own. -/
def fcCount : FieldConfig := ⟨.named "Int", [("limit", ⟨"Int", "max count"⟩)], some countResolver⟩

/-- A string-typed field with a resolver of its own. -/
def fcName : FieldConfig := ⟨.named "String", [], some helloResolver⟩

/-! The claim theorems. -/

/-- C1, counterexample: for a non-text field without a resolver, the
rewrite pass does install a resolver (the default one), so the field is
not identical before and after the pass. -/
theorem C1_counterexample :
    fcAge.resolve = none
  ∧ maybeBuildTransform fcAge.type = .error .notAString
  ∧ (match maybeInjectTransform "age" fcAge with
     | .ok fc' => fc'.resolve.isSome
     | .error _ => false) = true
  ∧ maybeInjectTransform "age" fcAge ≠ .ok fcAge := by
  refine ⟨rfl, rfl, rfl, ?_⟩
  intro h
  have hD : (Except.ok { fcAge with resolve := some (defaultResolve "age") }
      : Except Err FieldConfig) = .ok fcAge :=
    (show maybeInjectTransform "age" fcAge
      = .ok { fcAge with resolve := some (defaultResolve "age") } from rfl).symm.trans h
  have hR := congrArg FieldConfig.resolve (Except.ok.inj hD)
  exact Option.noConfusion hR

/-- C1 (amended): for every field whose declared output type does not
terminate in text, the rewrite pass leaves the argument mapping and the
declared type unchanged and never replaces an existing data-fetching
function; the only change is that a field lacking a data-fetching function
gains the default one, which the pass installs before the type check. -/
theorem C1_nonText_field_frame (fieldName : String) (fc : FieldConfig)
    (h : maybeBuildTransform fc.type = .error .notAString) :
    maybeInjectTransform fieldName fc
      = .ok { fc with resolve := some (fc.resolve.getD (defaultResolve fieldName)) } := by
  rw [maybeInjectTransform_skip fieldName fc h, withDefaultResolve_eq]

/-- C1, witness: a non-text field that already has a resolver is returned
entirely unchanged. -/
theorem C1_witness : maybeInjectTransform "count" fcCount = .ok fcCount :=
  C1_nonText_field_frame "count" fcCount rfl

/-- C2, counterexample: on `ab-cd` the code capitalizes only the first
letter of the whole whitespace-free run, not of every maximal run of word
characters as the claim states. -/
theorem C2_counterexample :
    baseTransform (.vstr "ab-cd") (.vstr "TitleCase") = .ok (.vstr "Ab-cd")
  ∧ claimTitleCase "ab-cd" = "Ab-Cd"
  ∧ ("Ab-cd" : String) ≠ "Ab-Cd" :=
  ⟨rfl, rfl, by decide⟩

/-- C2 (amended): the base transform returns the value unchanged when no
mode is supplied or the value is not a run-time string; mode UPPERCASE
upper-cases every character, mode lowercase lower-cases every character,
and mode TitleCase processes each maximal whitespace-free run by leaving
the characters before the first word character unchanged, upper-casing
that first word character and lower-casing the remainder of the run; the
three concrete examples of the claim hold. -/
theorem C2_base_transform_behavior :
    (∀ v, baseTransform v .vundefined = .ok v)
  ∧ (∀ v m, isString v = false → baseTransform v m = .ok v)
  ∧ (∀ s, baseTransform (.vstr s) (.vstr "UPPERCASE")
      = .ok (.vstr (String.mk (s.data.map Char.toUpper))))
  ∧ (∀ s, baseTransform (.vstr s) (.vstr "lowercase")
      = .ok (.vstr (String.mk (s.data.map Char.toLower))))
  ∧ (∀ s, baseTransform (.vstr s) (.vstr "TitleCase")
      = .ok (.vstr (String.mk (wordRuns s.data))))
  ∧ baseTransform (.vstr "hello") (.vstr "UPPERCASE") = .ok (.vstr "HELLO")
  ∧ baseTransform (.vstr "HELLO") (.vstr "lowercase") = .ok (.vstr "hello")
  ∧ baseTransform (.vstr "the quick fox") (.vstr "TitleCase") = .ok (.vstr "The Quick Fox") := by
  refine ⟨fun v => baseTransform_falsy v _ rfl, baseTransform_nonstring,
    fun s => rfl, fun s => rfl, fun s => ?_, rfl, rfl, rfl⟩
  rw [show baseTransform (.vstr s) (.vstr "TitleCase") = .ok (.vstr (toTitleCase s)) from rfl,
    toTitleCase_eq_wordRuns]

/-- C2, witness: a non-string value passes the base transform unchanged. -/
theorem C2_witness : baseTransform (.vnum 3) (.vstr "TitleCase") = .ok (.vnum 3) :=
  C2_base_transform_behavior.2.1 (.vnum 3) (.vstr "TitleCase") rfl

/-- C3, counterexample: for a non-null list of nullable text the non-null
branch recurses on the fully-unwrapped String composer, so the built
transform is the plain base transform and the array of the claim passes
through unchanged instead of being lower-cased element-wise. -/
theorem C3_counterexample :
    maybeBuildTransform (.nonNull (.list (.named "String"))) = .ok baseTransform
  ∧ baseTransform (.varr [.vstr "ann", .vnull, .vstr "BOB"]) (.vstr "lowercase")
      = .ok (.varr [.vstr "ann", .vnull, .vstr "BOB"])
  ∧ (Except.ok (Value.varr [.vstr "ann", .vnull, .vstr "BOB"]) : Except Err Value)
      ≠ .ok (.varr [.vstr "ann", .vnull, .vstr "bob"]) := by
  refine ⟨rfl, rfl, ?_⟩
  intro h
  have h1 := Value.varr.inj (Except.ok.inj h)
  have h2 := (List.cons.inj h1).2
  have h3 := (List.cons.inj h2).2
  have h4 := (List.cons.inj h3).1
  exact absurd (Value.vstr.inj h4) (by decide)

/-- C3 (amended): the list transform is the identity when no mode is
supplied or the value is not an array; on an array with a supplied mode it
applies the sub-transform element-wise, preserving order and length; it is
the transform built when a List wrapper is the outermost analyzed type,
with the sub-transform built for the innermost named type — for a plain
list of nullable text, on `["ann", null, "BOB"]` with mode lowercase it
yields `["ann", null, "bob"]`.  Wrapped in non-null, the builder instead
recurses on the fully-unwrapped String composer and produces the plain
base transform, so the same array would pass through unchanged. -/
theorem C3_list_transform :
    (∀ sub v m, truthy m = false → listTransform sub v m = .ok v)
  ∧ (∀ sub v m, isArray v = false → listTransform sub v m = .ok v)
  ∧ (∀ (sub : Transform) (xs ys : List Value) (m : Value), truthy m = true →
       listTransform sub (.varr xs) m = .ok (.varr ys) →
       ys.length = xs.length ∧ List.Forall₂ (fun x y => sub x m = .ok y) xs ys)
  ∧ (∀ (sub : Transform) (xs : List Value) (m : Value), truthy m = true →
       (∀ x ∈ xs, ∃ y, sub x m = .ok y) →
       ∃ ys, listTransform sub (.varr xs) m = .ok (.varr ys))
  ∧ maybeBuildTransform (.list (.named "String")) = .ok (listTransform baseTransform)
  ∧ listTransform baseTransform (.varr [.vstr "ann", .vnull, .vstr "BOB"]) (.vstr "lowercase")
      = .ok (.varr [.vstr "ann", .vnull, .vstr "bob"]) := by
  refine ⟨listTransform_falsy, listTransform_not_array, ?_, ?_, rfl, rfl⟩
  · intro sub xs ys m hm h
    rw [listTransform_array sub xs m hm] at h
    cases he : mapExcept (fun x => sub x m) xs with
    | error e =>
      rw [he] at h
      exact absurd h (by simp [Except.map])
    | ok ys' =>
      rw [he] at h
      have hys : ys' = ys := by simpa [Except.map] using h
      subst hys
      have hf := mapExcept_ok_forall₂ _ he
      exact ⟨hf.length_eq.symm, hf⟩
  · intro sub xs m hm h
    obtain ⟨ys, hys⟩ := mapExcept_total _ xs h
    refine ⟨ys, ?_⟩
    rw [listTransform_array sub xs m hm, hys]
    rfl

/-- C3, witness: a non-array value passes through unchanged even with a
mode supplied. -/
theorem C3_witness :
    listTransform baseTransform (.vstr "BOB") (.vstr "lowercase") = .ok (.vstr "BOB") :=
  C3_list_transform.2.1 baseTransform (.vstr "BOB") (.vstr "lowercase") rfl

/-- C4, counterexample: with `null` arguments, which are not a structured
object but satisfy the JS test `typeof args === "object"`, the replacement
resolver of an augmented text field throws a TypeError instead of
resolving to the value of the original resolver. -/
theorem C4_counterexample :
    (match maybeInjectTransform "name" fcName with
     | .ok fc' =>
       match fc'.resolve with
       | some r => r .vundefined .vnull .vundefined .vundefined
       | none => .ok .vundefined
     | .error e => .error e)
      = .error .typeError
  ∧ helloResolver .vundefined .vnull .vundefined .vundefined = .ok (.vstr "hi")
  ∧ (Except.error Err.typeError : Except Err Value) ≠ .ok (.vstr "hi") := by
  refine ⟨rfl, rfl, ?_⟩
  intro h
  exact Except.noConfusion h

/-- C4 (amended): every transform built by the unwrapper maps any value
with a falsy mode to that value unchanged; consequently the replacement
resolver yields exactly the value of the original resolver whenever reading the
transformation argument succeeds and yields a falsy mode, which covers
every argument value except `null`: arguments of non-object run-time type
read as an absent mode, and argument objects lacking the entry read it as
undefined. -/
theorem C4_identity_law (t : OutputType) (f : Transform)
    (hf : maybeBuildTransform t = .ok f) :
    (∀ v m, truthy m = false → f v m = .ok v)
  ∧ (∀ (r : Resolver) (s a c i v m : Value), r s a c i = .ok v →
       textTransformArg a = .ok m → truthy m = false →
       wrapResolve f r s a c i = .ok v) := by
  refine ⟨transform_falsy_id t f hf, ?_⟩
  intro r s a c i v m hr ha hm
  unfold wrapResolve
  rw [hr, ha]
  exact transform_falsy_id t f hf v m hm

/-- C4, witness: the replacement resolver is the identity on the original
result when the argument object has no transformation entry. -/
theorem C4_witness :
    wrapResolve baseTransform countResolver .vundefined (.vobj []) .vundefined .vundefined
      = .ok (.vnum 7) :=
  (C4_identity_law (.named "String") baseTransform rfl).2 countResolver
    .vundefined (.vobj []) .vundefined .vundefined (.vnum 7) .vundefined rfl rfl rfl

/-- C5, counterexample: the empty string is outside the closed enumeration
yet the base transform returns the value unchanged, because the falsiness
test precedes the switch. -/
theorem C5_counterexample :
    baseTransform (.vstr "hi") (.vstr "") = .ok (.vstr "hi")
  ∧ ("" : String) ≠ "UPPERCASE"
  ∧ ("" : String) ≠ "lowercase"
  ∧ ("" : String) ≠ "TitleCase" :=
  ⟨rfl, by decide, by decide, by decide⟩

/-- C5 (amended): when a truthy mode value outside the closed enumeration
reaches the base transform together with a run-time string value, it
raises the user-input error and produces no value; falsy out-of-range
modes and non-string values instead pass through unchanged. -/
theorem C5_invalid_mode (s : String) (m : Value)
    (hm : truthy m = true)
    (h1 : m ≠ .vstr "UPPERCASE") (h2 : m ≠ .vstr "lowercase") (h3 : m ≠ .vstr "TitleCase") :
    baseTransform (.vstr s) m = .error (.userInputError "Value out of range") := by
  have hb : baseTransform (.vstr s) m = applyTransform s m := by
    unfold baseTransform
    rw [hm]
  rw [hb]
  unfold applyTransform
  split <;> simp_all

/-- C5, witness: an unrecognized non-empty mode on a string raises. -/
theorem C5_witness :
    baseTransform (.vstr "hi") (.vstr "bogus")
      = .error (.userInputError "Value out of range") :=
  C5_invalid_mode "hi" (.vstr "bogus") rfl
    (fun h => absurd (Value.vstr.inj h) (by decide))
    (fun h => absurd (Value.vstr.inj h) (by decide))
    (fun h => absurd (Value.vstr.inj h) (by decide))

/-- C6: the field rewriter always returns normally (so the `NotAString`
signal never escapes it); on that signal the field is skipped with only
the unconditional default-resolver installation applied; and the catch
block rethrows every error other than the `NotAString` signal. -/
theorem C6_signal_containment :
    (∀ fn fc, ∃ fc', maybeInjectTransform fn fc = .ok fc')
  ∧ (∀ fn fc, maybeBuildTransform fc.type = .error .notAString →
       maybeInjectTransform fn fc = .ok (withDefaultResolve fn fc))
  ∧ (∀ fc e, e ≠ Err.notAString → catchNotAString fc (.error e) = .error e) := by
  refine ⟨maybeInjectTransform_total, maybeInjectTransform_skip, ?_⟩
  intro fc e he
  simp [catchNotAString, he]

/-- C6, witness: a non-signal error is rethrown by the catch block. -/
theorem C6_witness : catchNotAString fcAge (.error .typeError) = .error .typeError :=
  C6_signal_containment.2.2 fcAge .typeError (by decide)

/-- C7, counterexample: wrapper transparency fails at a list target:
non-null of a list of text (and likewise a deferred reference to it)
builds the plain base transform, while the list type itself builds the
element-wise transform, and the two differ on a singleton array with a
supplied mode. -/
theorem C7_counterexample :
    maybeBuildTransform (.list (.named "String")) = .ok (listTransform baseTransform)
  ∧ maybeBuildTransform (.nonNull (.list (.named "String"))) = .ok baseTransform
  ∧ maybeBuildTransform (.thunk (.list (.named "String"))) = .ok baseTransform
  ∧ listTransform baseTransform (.varr [.vstr "A"]) (.vstr "lowercase")
      = .ok (.varr [.vstr "a"])
  ∧ baseTransform (.varr [.vstr "A"]) (.vstr "lowercase") = .ok (.varr [.vstr "A"])
  ∧ (Except.ok (Value.varr [.vstr "a"]) : Except Err Value) ≠ .ok (.varr [.vstr "A"]) := by
  refine ⟨rfl, rfl, rfl, rfl, rfl, ?_⟩
  intro h
  have h1 := (List.cons.inj (Value.varr.inj (Except.ok.inj h))).1
  exact absurd (Value.vstr.inj h1) (by decide)

/-- C7 (amended): the non-null wrapper and the deferred-reference wrapper
both reduce the builder to the innermost named type beneath them — so the
two wrappers always build the same transform as each other — and the
originally claimed one-layer transparency holds when the wrapped type is
itself a named type; it fails in general because the unwrapping skips
intermediate list layers. -/
theorem C7_wrapper_transparency (t : OutputType) :
    maybeBuildTransform (.nonNull t) = maybeBuildTransform (namedInner t)
  ∧ maybeBuildTransform (.thunk t) = maybeBuildTransform (namedInner t)
  ∧ maybeBuildTransform (.nonNull t) = maybeBuildTransform (.thunk t)
  ∧ (∀ n : String, maybeBuildTransform (.nonNull (.named n)) = maybeBuildTransform (.named n))
  ∧ (∀ n : String, maybeBuildTransform (.thunk (.named n)) = maybeBuildTransform (.named n)) := by
  refine ⟨maybeBuildTransform_nonNull_named t, maybeBuildTransform_thunk_named t,
    (maybeBuildTransform_nonNull_named t).trans (maybeBuildTransform_thunk_named t).symm,
    fun n => ?_, fun n => ?_⟩
  · rw [maybeBuildTransform_nonNull_named (.named n)]
    rfl
  · rw [maybeBuildTransform_thunk_named (.named n)]
    rfl

/-- C8: on every (finite) output-type expression the unwrapper terminates
with either a transform or the `NotAString` signal, visiting each wrapper
layer at most once; in particular text wrapped twice in non-null builds
the base transform, and a deferred reference to a named object type (the
shape a circular schema reference takes) terminates with the signal. -/
theorem C8_unwrapper_terminates :
    (∀ t : OutputType, (∃ f, maybeBuildTransform t = .ok f)
        ∨ maybeBuildTransform t = .error .notAString)
  ∧ (∀ t : OutputType, buildSteps t ≤ typeDepth t)
  ∧ maybeBuildTransform (.nonNull (.nonNull (.named "String"))) = .ok baseTransform
  ∧ maybeBuildTransform (.thunk (.named "Author")) = .error .notAString := by
  refine ⟨?_, buildSteps_le_typeDepth, rfl, rfl⟩
  intro t
  cases h : maybeBuildTransform t with
  | ok f => exact Or.inl ⟨f, rfl⟩
  | error e =>
    have he := maybeBuildTransform_error t e h
    subst he
    exact Or.inr rfl

/-- C9: a non-string value passes the base transform unchanged whatever
the mode, and the user-input error is only ever raised for string-valued
inputs. -/
theorem C9_nonstring_never_raises :
    (∀ v m, isString v = false → baseTransform v m = .ok v)
  ∧ (∀ v m e, baseTransform v m = .error e → isString v = true) :=
  ⟨baseTransform_nonstring, baseTransform_error_string⟩

/-- C9, witness: a null value with an out-of-range mode returns unchanged. -/
theorem C9_witness : baseTransform .vnull (.vstr "bogus") = .ok .vnull :=
  C9_nonstring_never_raises.1 .vnull (.vstr "bogus") rfl

/-- C10: for an absent mode or one of the three enumerated modes, every
transform the builder produces returns normally on every value: the
user-input error branch is unreachable under this precondition. -/
theorem C10_valid_modes_never_raise (t : OutputType) (f : Transform)
    (hf : maybeBuildTransform t = .ok f) (v m : Value) (hm : validMode m) :
    ∃ w, f v m = .ok w :=
  transform_total_validMode t f hf v m hm

/-- C10, witness: the list-of-text transform returns normally on a mixed
array with mode UPPERCASE. -/
theorem C10_witness :
    ∃ w, listTransform baseTransform (.varr [.vstr "a", .vnull]) (.vstr "UPPERCASE") = .ok w :=
  C10_valid_modes_never_raise (.list (.named "String")) (listTransform baseTransform) rfl
    (.varr [.vstr "a", .vnull]) (.vstr "UPPERCASE") (Or.inr (Or.inl rfl))

